import Mathlib

/-!
Shallow embedding of the validation and sanitization layer of the
`nbbaier/appetite` repository (`src/lib/validation/utils.ts` and the
schema registry in `src/lib/supabase.ts`), together with proofs about
the properties its specification states.

Strings are modelled by Lean `String` (a packed `List Char`); the
JavaScript operations used by the code (`String.prototype.trim`,
single-character global `replace`, `.length`) are re-implemented here
on the character list so that every definition is executable and every
theorem can be checked on concrete inputs.  JavaScript numbers are
modelled by `Rat` (no claim under consideration depends on floating
point rounding).
-/

namespace Appetite

/-- Whitespace predicate used by the model of `String.prototype.trim`.
JavaScript trims the full Unicode whitespace class; the inputs of this
development are ASCII, for which the class is space, tab, line feed,
carriage return, vertical tab and form feed. -/
def isJsSpace (c : Char) : Bool :=
  c = ' ' || c = '\t' || c = '\n' || c = '\r' || c = Char.ofNat 11 || c = Char.ofNat 12

/-- Drop leading whitespace from a character list. -/
def trimLeftChars (l : List Char) : List Char :=
  l.dropWhile isJsSpace

/-- Drop trailing whitespace from a character list. -/
def trimRightChars (l : List Char) : List Char :=
  (l.reverse.dropWhile isJsSpace).reverse

/-- Model of JavaScript `String.prototype.trim`: drop leading and
trailing whitespace. -/
def trimChars (l : List Char) : List Char :=
  trimRightChars (trimLeftChars l)

/-- Model of JavaScript `s.trim()` on packed strings. -/
def jsTrim (s : String) : String :=
  ⟨trimChars s.data⟩

/-- Model of JavaScript `s.length` (for the ASCII inputs considered
here, UTF-16 code units coincide with characters). -/
def jsLen (s : String) : Nat :=
  s.data.length

/-- Model of JavaScript `s.replace(/t/g, rep)` for a single-character
pattern `t`: every occurrence of `t` is replaced by the list `rep`. -/
def replaceAllChar (t : Char) (rep : List Char) : List Char → List Char
  | [] => []
  | c :: cs => (if c = t then rep else [c]) ++ replaceAllChar t rep cs

/-- The apostrophe character `'` (written by code point to keep the
source free of quoting subtleties). -/
def apos : Char := Char.ofNat 39

/-- Embedding of `sanitizeString` from `src/lib/validation/utils.ts`
(lines 84–95): six sequential global replaces — `&` to `&amp;`, `<` to
`&lt;`, `>` to `&gt;`, `"` to `&quot;`, `'` to `&#x27;`, `/` to
`&#x2F;` — followed by `.trim()`. -/
def sanitizeString (input : String) : String :=
  let escaped : List Char :=
    replaceAllChar '/' "&#x2F;".data
      (replaceAllChar apos "&#x27;".data
        (replaceAllChar '"' "&quot;".data
          (replaceAllChar '>' "&gt;".data
            (replaceAllChar '<' "&lt;".data
              (replaceAllChar '&' "&amp;".data input.data)))))
  jsTrim ⟨escaped⟩

/-- Per-character escaping of the six characters `sanitizeString`
actually replaces; all other characters are kept unchanged.  Used to
characterize `sanitizeString` as a character-wise map followed by a
trim. -/
def escSix (c : Char) : List Char :=
  if c = '&' then "&amp;".data
  else if c = '<' then "&lt;".data
  else if c = '>' then "&gt;".data
  else if c = '"' then "&quot;".data
  else if c = apos then "&#x27;".data
  else if c = '/' then "&#x2F;".data
  else [c]

/-- Per-character escaping of exactly the five HTML-significant
characters named by the specification (`&`, `<`, `>`, `"`, `'`),
leaving every other character — in particular `/` — unchanged. -/
def escFiveSpec (c : Char) : List Char :=
  if c = '&' then "&amp;".data
  else if c = '<' then "&lt;".data
  else if c = '>' then "&gt;".data
  else if c = '"' then "&quot;".data
  else if c = apos then "&#x27;".data
  else [c]

/-- The sanitizer described by the specification's words: escape
exactly the five HTML-significant characters, replace no other
character, then trim. -/
def sanitizeFiveSpec (s : String) : String :=
  jsTrim ⟨s.data.flatMap escFiveSpec⟩

/-- Escape the six characters character-wise, then trim: the function
`sanitizeString` is proved equal to. -/
def sanitizeSixSpec (s : String) : String :=
  jsTrim ⟨s.data.flatMap escSix⟩

/-- Embedding of the `ValidationError` interface: a field path and a
human-readable message. -/
structure ValidationError where
  field : String
  message : String
deriving DecidableEq, Repr

/-- Embedding of the `ValidationResult<T>` tagged union.  The success
payload is an `Option T`: TypeScript's `T` may itself contain
`undefined` (modelled by `none`), and `collectValidationErrors`
branches on exactly that. -/
inductive ValidationResult (T : Type) where
  | success (data : Option T)
  | failure (errors : List ValidationError)
deriving DecidableEq, Repr

/-- Embedding of `formatErrorMessage` (utils.ts lines 31–36): zero
errors give a generic fallback, one error gives its message alone, two
or more give a header line plus one bullet per error. -/
def formatErrorMessage (errors : List ValidationError) : String :=
  if errors.length = 0 then "Validation failed"
  else if errors.length = 1 then (errors.headD ⟨"", ""⟩).message
  else "Validation failed:\n" ++
    String.intercalate "\n" (errors.map (fun e => "- " ++ e.field ++ ": " ++ e.message))

/-- One step of the accumulation loop of `collectValidationErrors`:
failures append their errors, successes overwrite the running
`lastSuccessData` (even with an undefined payload, as the code's
unconditional assignment does). -/
def collectStep {T : Type} (acc : List ValidationError × Option T)
    (r : ValidationResult T) : List ValidationError × Option T :=
  match r with
  | .failure errs => (acc.1 ++ errs, acc.2)
  | .success d => (acc.1, d)

/-- Embedding of `collectValidationErrors` (utils.ts lines 300–326):
walk the results accumulating errors and the last success's data; fail
with the accumulated errors when there are any, fail with the generic
"No valid data found" error when `lastSuccessData` is `undefined`, and
succeed with the last success's data otherwise. -/
def collectValidationErrors {T : Type} (results : List (ValidationResult T)) :
    ValidationResult T :=
  let st := results.foldl collectStep ([], none)
  if st.1.length > 0 then .failure st.1
  else
    match st.2 with
    | none => .failure [⟨"general", "No valid data found"⟩]
    | some d => .success (some d)

/-- Embedding of the deprecated `mergeValidationResults` (utils.ts
lines 332–336), which delegates to `collectValidationErrors`. -/
def mergeValidationResults {T : Type} (results : List (ValidationResult T)) :
    ValidationResult T :=
  collectValidationErrors results

/-- The concatenation, in input order, of the errors of the failed
results in a list. -/
def failedErrorsOf {T : Type} (rs : List (ValidationResult T)) : List ValidationError :=
  rs.flatMap (fun r => match r with | .failure es => es | .success _ => [])

/-- The data carried by the last successful result of a list, if any
result succeeded (the payload itself may still be `none`, modelling a
success whose `data` is `undefined`). -/
def lastSuccessDataOf {T : Type} (rs : List (ValidationResult T)) : Option (Option T) :=
  (rs.filterMap (fun r => match r with | .success d => some d | .failure _ => none)).getLast?

/-- Leaf JavaScript value (the payload of a nested array or object).
One nesting level is enough to express every property under study — in
particular that `sanitizeObject` does not descend into nested
structures. -/
inductive JAtom where
  | str (s : String)
  | num (q : Rat)
  | boolean (b : Bool)
  | nullV
deriving DecidableEq, Repr

/-- Model of a JavaScript value as it reaches the schema validators
and the sanitizer: a string, a number (modelled by `Rat`), a boolean,
`null`, a nested array, or a nested plain object given as its ordered
own properties. -/
inductive JVal where
  | str (s : String)
  | num (q : Rat)
  | boolean (b : Bool)
  | nullV
  | arr (elems : List JAtom)
  | obj (fields : List (String × JAtom))
deriving DecidableEq, Repr

/-- Decidable equality for `Except`, used to evaluate parse results on
concrete inputs. -/
instance {α β : Type} [DecidableEq α] [DecidableEq β] : DecidableEq (Except α β) :=
  fun a b =>
    match a, b with
    | .ok x, .ok y =>
      if h : x = y then .isTrue (by rw [h]) else .isFalse (fun hc => h (by injection hc))
    | .error x, .error y =>
      if h : x = y then .isTrue (by rw [h]) else .isFalse (fun hc => h (by injection hc))
    | .ok _, .error _ => .isFalse (fun hc => Except.noConfusion hc)
    | .error _, .ok _ => .isFalse (fun hc => Except.noConfusion hc)

/-- First-match property lookup on an object's field list; `none`
models a missing property (`undefined`).  JavaScript object keys are
unique, so first match is the match. -/
def lookupJ (fields : List (String × JVal)) (k : String) : Option JVal :=
  match fields with
  | [] => none
  | (k2, v) :: rest => if k2 = k then some v else lookupJ rest k

/-- Consume exactly `n` decimal digits from the front of a character
list, returning the remainder. -/
def consumeDigits : Nat → List Char → Option (List Char)
  | 0, l => some l
  | _ + 1, [] => none
  | n + 1, c :: cs => if c.isDigit then consumeDigits n cs else none

/-- Consume one expected character from the front of a character list. -/
def consumeChar (c : Char) : List Char → Option (List Char)
  | [] => none
  | d :: cs => if d = c then some cs else none

/-- Model of the check behind `z.string().datetime()` (zod's
no-offset ISO-8601 pattern): `YYYY-MM-DDTHH:MM:SS`, an optional
fractional-seconds part, then a literal `Z`. -/
def isDatetime (s : String) : Bool :=
  (do
    let l ← consumeDigits 4 s.data
    let l ← consumeChar '-' l
    let l ← consumeDigits 2 l
    let l ← consumeChar '-' l
    let l ← consumeDigits 2 l
    let l ← consumeChar 'T' l
    let l ← consumeDigits 2 l
    let l ← consumeChar ':' l
    let l ← consumeDigits 2 l
    let l ← consumeChar ':' l
    let l ← consumeDigits 2 l
    let l ← (match l with
      | '.' :: rest =>
        if rest.takeWhile Char.isDigit = [] then none
        else some (rest.dropWhile Char.isDigit)
      | _ => some l)
    let l ← consumeChar 'Z' l
    if l = [] then some () else none).isSome

/-- Model of the check behind `z.string().date()`: a `YYYY-MM-DD`
calendar date string. -/
def isDateStr (s : String) : Bool :=
  (do
    let l ← consumeDigits 4 s.data
    let l ← consumeChar '-' l
    let l ← consumeDigits 2 l
    let l ← consumeChar '-' l
    let l ← consumeDigits 2 l
    if l = [] then some () else none).isSome

/-- Split a character list at every occurrence of a separator. -/
def splitOnChar (sep : Char) : List Char → List (List Char)
  | [] => [[]]
  | c :: cs =>
    let r := splitOnChar sep cs
    if c = sep then [] :: r
    else
      match r with
      | [] => [[c]]
      | h :: t => (c :: h) :: t

/-- Hexadecimal-digit predicate. -/
def isHexChar (c : Char) : Bool :=
  c.isDigit || ('a' ≤ c && c ≤ 'f') || ('A' ≤ c && c ≤ 'F')

/-- Model of the check behind `z.string().uuid()`: five dash-separated
hexadecimal groups of lengths 8, 4, 4, 4 and 12. -/
def isUuid (s : String) : Bool :=
  match splitOnChar '-' s.data with
  | [a, b, c, d, e] =>
    a.length = 8 && b.length = 4 && c.length = 4 && d.length = 4 && e.length = 12 &&
    (a ++ b ++ c ++ d ++ e).all isHexChar
  | _ => false

/-- Modelled from the spec: the check behind `z.string().url()`.  The
code delegates to the platform URL constructor, which is not part of
this repository; the spec requires "a valid absolute URL", modelled
here as an alphabetic scheme, a literal `://` and a nonempty
remainder. -/
def isUrl (s : String) : Bool :=
  let l := s.data
  let scheme := l.takeWhile (fun c => c ≠ ':' && c ≠ '/')
  scheme ≠ [] && scheme.all Char.isAlpha &&
    (l.drop scheme.length).take 3 = [':', '/', '/'] &&
    l.drop (scheme.length + 3) ≠ []

/-- The checks a zod string schema chains; processed strictly in
order, with `trim` transforming the running value (so bounds placed
before `trim` see the untrimmed string). -/
inductive StrCheck where
  | min (n : Nat) (msg : String)
  | max (n : Nat) (msg : String)
  | trim
  | uuid (msg : String)
  | datetime (msg : String)
  | dateFmt (msg : String)
  | url (msg : String)
deriving DecidableEq, Repr

/-- Run one string check: bounds and format checks add an issue and
leave the value unchanged; `trim` rewrites the running value. -/
def runStrCheck (acc : String × List String) (c : StrCheck) : String × List String :=
  match c with
  | .min n msg => if jsLen acc.1 < n then (acc.1, acc.2 ++ [msg]) else acc
  | .max n msg => if jsLen acc.1 > n then (acc.1, acc.2 ++ [msg]) else acc
  | .trim => (jsTrim acc.1, acc.2)
  | .uuid msg => if isUuid acc.1 then acc else (acc.1, acc.2 ++ [msg])
  | .datetime msg => if isDatetime acc.1 then acc else (acc.1, acc.2 ++ [msg])
  | .dateFmt msg => if isDateStr acc.1 then acc else (acc.1, acc.2 ++ [msg])
  | .url msg => if isUrl acc.1 then acc else (acc.1, acc.2 ++ [msg])

/-- Run a zod string schema's check list in order, starting from the
raw input, returning the (possibly trimmed) output value and the
collected issues. -/
def runStrChecks (checks : List StrCheck) (s : String) : String × List String :=
  checks.foldl runStrCheck (s, [])

/-- The checks a zod number schema chains. -/
inductive NumCheck where
  | positive (msg : String)
  | nonneg (msg : String)
  | intC (msg : String)
deriving DecidableEq, Repr

/-- Run one number check, collecting an issue on violation. -/
def runNumCheck (q : Rat) (issues : List String) (c : NumCheck) : List String :=
  match c with
  | .positive msg => if 0 < q then issues else issues ++ [msg]
  | .nonneg msg => if 0 ≤ q then issues else issues ++ [msg]
  | .intC msg => if q.den = 1 then issues else issues ++ [msg]

/-- Run a zod number schema's check list in order. -/
def runNumChecks (checks : List NumCheck) (q : Rat) : List String :=
  checks.foldl (runNumCheck q) []

/-- The fragment of zod's schema language used by the entity schemas
in `src/lib/supabase.ts`: string schemas with chained checks, number
schemas with chained checks, booleans, closed enums with a custom
error message, string literals, unions (`.or`), and `.optional()`. -/
inductive FieldSchema where
  | zstr (checks : List StrCheck)
  | znum (checks : List NumCheck)
  | zbool
  | zenum (opts : List String) (msg : String)
  | zliteral (s : String)
  | zunion (a b : FieldSchema)
  | zoptional (inner : FieldSchema)
deriving DecidableEq, Repr

/-- Parse one property against its field schema.  The input is the
looked-up property (`none` = missing/`undefined`); the output is the
parsed value, where `none` means the key is absent from the parsed
object (an absent optional field). -/
def parseField : FieldSchema → Option JVal → Except (List String) (Option JVal)
  | .zoptional _, none => .ok none
  | .zoptional inner, some v => parseField inner (some v)
  | _, none => .error ["Required"]
  | .zstr checks, some (.str s) =>
    if (runStrChecks checks s).2 = [] then .ok (some (.str (runStrChecks checks s).1))
    else .error (runStrChecks checks s).2
  | .zstr _, some _ => .error ["Expected string"]
  | .znum checks, some (.num q) =>
    if runNumChecks checks q = [] then .ok (some (.num q))
    else .error (runNumChecks checks q)
  | .znum _, some _ => .error ["Expected number"]
  | .zbool, some (.boolean b) => .ok (some (.boolean b))
  | .zbool, some _ => .error ["Expected boolean"]
  | .zenum opts msg, some (.str s) =>
    if s ∈ opts then .ok (some (.str s)) else .error [msg]
  | .zenum _ msg, some _ => .error [msg]
  | .zliteral lit, some v =>
    if v = .str lit then .ok (some v) else .error ["Invalid literal value"]
  | .zunion a b, some v =>
    match parseField a (some v) with
    | .ok r => .ok r
    | .error _ =>
      match parseField b (some v) with
      | .ok r => .ok r
      | .error _ => .error ["Invalid input"]

/-- Parse all declared fields of an object schema against an input
object, collecting one `ValidationError` per field issue (the field
path of a flat object schema is the key itself) and, in shape order,
the parsed properties that are present.  Unknown input keys are
stripped, as zod's default object mode does. -/
def parseObjFields : List (String × FieldSchema) → List (String × JVal) →
    List ValidationError × List (String × JVal)
  | [], _ => ([], [])
  | (k, fs) :: rest, input =>
    let acc := parseObjFields rest input
    match parseField fs (lookupJ input k) with
    | .ok none => acc
    | .ok (some v) => (acc.1, (k, v) :: acc.2)
    | .error msgs => (msgs.map (fun m => ⟨k, m⟩) ++ acc.1, acc.2)

/-- Model of `schema.safeParse(data)` for an object schema: the parse
succeeds exactly when no field issue was collected. -/
def parseObj (shape : List (String × FieldSchema)) (input : List (String × JVal)) :
    Except (List ValidationError) (List (String × JVal)) :=
  if (parseObjFields shape input).1 = [] then .ok (parseObjFields shape input).2
  else .error (parseObjFields shape input).1

/-- Embedding of `validate` (utils.ts lines 41–52) at an object
schema: wrap `safeParse` into a `ValidationResult`, formatting issues
via `formatZodErrors`' field/message projection. -/
def validateS (shape : List (String × FieldSchema)) (input : List (String × JVal)) :
    ValidationResult (List (String × JVal)) :=
  match parseObj shape input with
  | .ok d => .success (some d)
  | .error errs => .failure errs

/-- Embedding of `validateEnv` (utils.ts lines 118–134): on a failed
parse, throw (model: return `.error`) with the aggregated message — one
"- field: message" line per field error under a fixed header; on
success return the parsed configuration. -/
def validateEnv (shape : List (String × FieldSchema)) (env : List (String × JVal)) :
    Except String (List (String × JVal)) :=
  match parseObj shape env with
  | .error errs =>
    .error ("Environment validation failed:\n" ++
      String.intercalate "\n" (errs.map (fun e => "- " ++ e.field ++ ": " ++ e.message)))
  | .ok d => .ok d

/-- Shape of `.omit({k: true, ...})` on a zod object schema: the named
keys are removed from the shape. -/
def omitKeys (ks : List String) (shape : List (String × FieldSchema)) :
    List (String × FieldSchema) :=
  shape.filter (fun p => ¬ p.1 ∈ ks)

/-- Shape of `.partial()` on a zod object schema: every field becomes
optional. -/
def partialShape (shape : List (String × FieldSchema)) : List (String × FieldSchema) :=
  shape.map (fun p => (p.1, .zoptional p.2))

/-- Embedding of `uuidSchema` (supabase.ts). -/
def uuidSchema : FieldSchema := .zstr [.uuid "Invalid UUID format"]

/-- Embedding of `dateStringSchema` (supabase.ts). -/
def dateStringSchema : FieldSchema := .zstr [.datetime "Invalid datetime format"]

/-- Embedding of `positiveNumberSchema` (supabase.ts). -/
def positiveNumberSchema : FieldSchema := .znum [.positive "Must be a positive number"]

/-- Embedding of `nonNegativeNumberSchema` (supabase.ts). -/
def nonNegativeNumberSchema : FieldSchema := .znum [.nonneg "Must be non-negative"]

/-- Embedding of `ingredientSchema` (supabase.ts lines 142–166): the
ingredient Read schema.  Note the order inside each string field:
length bounds are chained before `.trim()`, exactly as in the source. -/
def ingredientSchema : List (String × FieldSchema) := [
  ("id", uuidSchema),
  ("user_id", uuidSchema),
  ("name", .zstr [.min 1 "Ingredient name is required",
                  .max 255 "Ingredient name too long", .trim]),
  ("quantity", positiveNumberSchema),
  ("unit", .zstr [.min 1 "Unit is required", .max 50 "Unit name too long", .trim]),
  ("category", .zstr [.min 1 "Category is required",
                      .max 100 "Category name too long", .trim]),
  ("expiration_date", .zoptional (.zstr [.dateFmt "Invalid date format"])),
  ("notes", .zoptional (.zstr [.max 1000 "Notes too long"])),
  ("low_stock_threshold", .zoptional nonNegativeNumberSchema),
  ("created_at", dateStringSchema),
  ("updated_at", dateStringSchema)]

/-- Embedding of `ingredientInsertSchema`: the Read schema with the
server-generated fields omitted. -/
def ingredientInsertSchema : List (String × FieldSchema) :=
  omitKeys ["id", "created_at", "updated_at"] ingredientSchema

/-- Embedding of `ingredientUpdateSchema`: the Insert schema made
partial, with `user_id` omitted. -/
def ingredientUpdateSchema : List (String × FieldSchema) :=
  omitKeys ["user_id"] (partialShape ingredientInsertSchema)

/-- Embedding of `recipeSchema` (supabase.ts lines 184–207). -/
def recipeSchema : List (String × FieldSchema) := [
  ("id", uuidSchema),
  ("user_id", uuidSchema),
  ("title", .zstr [.min 1 "Recipe title is required",
                   .max 255 "Recipe title too long", .trim]),
  ("description", .zstr [.min 1 "Recipe description is required",
                         .max 5000 "Recipe description too long", .trim]),
  ("image_url", .zunion (.zstr [.url "Invalid image URL"]) (.zliteral "")),
  ("prep_time", nonNegativeNumberSchema),
  ("cook_time", nonNegativeNumberSchema),
  ("servings", .znum [.positive "Must be a positive number",
                      .intC "Servings must be a whole number"]),
  ("difficulty", .zenum ["Easy", "Medium", "Hard"]
                   "Difficulty must be Easy, Medium, or Hard"),
  ("cuisine_type", .zoptional (.zstr [.max 100 "Cuisine type too long"])),
  ("created_at", dateStringSchema),
  ("updated_at", dateStringSchema)]

/-- Embedding of `recipeInsertSchema`. -/
def recipeInsertSchema : List (String × FieldSchema) :=
  omitKeys ["id", "created_at", "updated_at"] recipeSchema

/-- Embedding of `recipeUpdateSchema`: the Insert schema made partial,
with `user_id` omitted. -/
def recipeUpdateSchema : List (String × FieldSchema) :=
  omitKeys ["user_id"] (partialShape recipeInsertSchema)

/-- Embedding of `sanitizeObject` (utils.ts lines 100–113): spread the
object into a fresh one and rewrite each string-valued own property
through `sanitizeString`, leaving every other property value — numbers,
booleans, `null`, nested arrays and nested objects — identical. -/
def sanitizeObject (obj : List (String × JVal)) : List (String × JVal) :=
  obj.map (fun p =>
    (p.1, match p.2 with
          | .str s => .str (sanitizeString s)
          | v => v))

/-- The escaping pipeline of `sanitizeString` in isolation (the six
sequential single-character global replaces, in source order). -/
def escChain (l : List Char) : List Char :=
  replaceAllChar '/' "&#x2F;".data
    (replaceAllChar apos "&#x27;".data
      (replaceAllChar '"' "&quot;".data
        (replaceAllChar '>' "&gt;".data
          (replaceAllChar '<' "&lt;".data
            (replaceAllChar '&' "&amp;".data l)))))

theorem dropWhile_self {α : Type} (p : α → Bool) (l : List α) :
    (l.dropWhile p).dropWhile p = l.dropWhile p := by
  induction l with
  | nil => rfl
  | cons c cs ih =>
    by_cases h : p c = true
    · simp [List.dropWhile_cons, h, ih]
    · simp [List.dropWhile_cons, h]

theorem trimLeftChars_idem (l : List Char) :
    trimLeftChars (trimLeftChars l) = trimLeftChars l :=
  dropWhile_self isJsSpace l

theorem trimRightChars_idem (l : List Char) :
    trimRightChars (trimRightChars l) = trimRightChars l := by
  unfold trimRightChars
  rw [List.reverse_reverse, dropWhile_self]

theorem trimRightChars_prefix (l : List Char) :
    ∃ r, l = trimRightChars l ++ r := by
  refine ⟨(l.reverse.takeWhile isJsSpace).reverse, ?_⟩
  calc l = l.reverse.reverse := (List.reverse_reverse l).symm
    _ = (l.reverse.takeWhile isJsSpace ++ l.reverse.dropWhile isJsSpace).reverse := by
        rw [List.takeWhile_append_dropWhile]
    _ = (l.reverse.dropWhile isJsSpace).reverse ++ (l.reverse.takeWhile isJsSpace).reverse := by
        rw [List.reverse_append]
    _ = trimRightChars l ++ (l.reverse.takeWhile isJsSpace).reverse := rfl

theorem trimLeftChars_trimRightChars {u : List Char} (h : trimLeftChars u = u) :
    trimLeftChars (trimRightChars u) = trimRightChars u := by
  obtain ⟨r, hr⟩ := trimRightChars_prefix u
  cases htr : trimRightChars u with
  | nil => rfl
  | cons c t =>
    have hu : u = c :: (t ++ r) := by rw [hr, htr]; rfl
    have hc : isJsSpace c = false := by
      by_contra hcc
      have hcc' : isJsSpace c = true := by
        cases hc2 : isJsSpace c
        · exact absurd hc2 hcc
        · rfl
      have h2 := h
      rw [hu] at h2
      unfold trimLeftChars at h2
      rw [List.dropWhile_cons, if_pos hcc'] at h2
      have hlen := (List.dropWhile_sublist (l := t ++ r) isJsSpace).length_le
      rw [h2] at hlen
      simp at hlen
    unfold trimLeftChars
    rw [List.dropWhile_cons, if_neg (by simp [hc])]

theorem trimChars_idem (l : List Char) : trimChars (trimChars l) = trimChars l := by
  unfold trimChars
  rw [trimLeftChars_trimRightChars (trimLeftChars_idem l), trimRightChars_idem]

theorem jsTrim_idem (s : String) : jsTrim (jsTrim s) = jsTrim s := by
  simp [jsTrim, trimChars_idem]

theorem trimChars_length_le (l : List Char) : (trimChars l).length ≤ l.length := by
  unfold trimChars trimRightChars trimLeftChars
  calc ((trimLeftChars l).reverse.dropWhile isJsSpace).reverse.length
      = ((l.dropWhile isJsSpace).reverse.dropWhile isJsSpace).length := by
        simp [trimLeftChars]
    _ ≤ (l.dropWhile isJsSpace).reverse.length :=
        (List.dropWhile_sublist isJsSpace).length_le
    _ = (l.dropWhile isJsSpace).length := by simp
    _ ≤ l.length := (List.dropWhile_sublist isJsSpace).length_le

theorem jsLen_jsTrim_le (s : String) : jsLen (jsTrim s) ≤ jsLen s :=
  trimChars_length_le s.data

theorem mem_of_mem_trimChars {c : Char} {l : List Char} (h : c ∈ trimChars l) : c ∈ l := by
  unfold trimChars trimRightChars trimLeftChars at h
  rw [List.mem_reverse] at h
  have h1 := (List.dropWhile_sublist (l := (l.dropWhile isJsSpace).reverse) isJsSpace).mem h
  rw [List.mem_reverse] at h1
  exact (List.dropWhile_sublist (l := l) isJsSpace).mem h1

theorem replaceAllChar_append (t : Char) (rep xs ys : List Char) :
    replaceAllChar t rep (xs ++ ys) = replaceAllChar t rep xs ++ replaceAllChar t rep ys := by
  induction xs with
  | nil => rfl
  | cons c cs ih => simp [replaceAllChar, ih]

theorem escChain_append (xs ys : List Char) :
    escChain (xs ++ ys) = escChain xs ++ escChain ys := by
  simp [escChain, replaceAllChar_append]

theorem escChain_single (c : Char) : escChain [c] = escSix c := by
  by_cases h1 : c = '&'
  · subst h1; decide
  by_cases h2 : c = '<'
  · subst h2; decide
  by_cases h3 : c = '>'
  · subst h3; decide
  by_cases h4 : c = '"'
  · subst h4; decide
  by_cases h5 : c = apos
  · subst h5; decide
  by_cases h6 : c = '/'
  · subst h6; decide
  simp [escChain, replaceAllChar, escSix, h1, h2, h3, h4, h5, h6]

theorem escChain_eq_flatMap (l : List Char) : escChain l = l.flatMap escSix := by
  induction l with
  | nil => rfl
  | cons c cs ih =>
    have hc : c :: cs = [c] ++ cs := rfl
    rw [hc, escChain_append, ih, escChain_single]
    simp

theorem sanitizeString_eq_sixSpec (s : String) : sanitizeString s = sanitizeSixSpec s := by
  show jsTrim ⟨escChain s.data⟩ = jsTrim ⟨s.data.flatMap escSix⟩
  rw [escChain_eq_flatMap]

theorem mk_data (s : String) : (⟨s.data⟩ : String) = s := by
  cases s; rfl

theorem flatMap_escSix_eq_self {l : List Char}
    (h : ∀ c ∈ l, escSix c = [c]) : l.flatMap escSix = l := by
  induction l with
  | nil => rfl
  | cons c cs ih =>
    rw [List.flatMap_cons, h c (by simp), ih (fun d hd => h d (by simp [hd]))]
    rfl

/-- C3 — corrected.  The specification says `sanitizeString` escapes
exactly the five HTML-significant characters and replaces no other
character; the code additionally escapes `/` to `&#x2F;`.  At the
input `"/"` the two functions disagree. -/
theorem c3_counterexample :
    sanitizeString "/" ≠ sanitizeFiveSpec "/" ∧
    sanitizeString "/" = "&#x2F;" ∧ sanitizeFiveSpec "/" = "/" := by
  decide

/-- C3 (amended) — `sanitizeString` equals the character-wise escape of
exactly six characters (`&`, `<`, `>`, `"`, `'` and additionally `/`)
followed by a trim; every character outside those six is kept
unchanged, so in particular no existing HTML tags are stripped. -/
theorem c3_sanitizeString_escapes_six :
    (∀ s : String, sanitizeString s = sanitizeSixSpec s) ∧
    (∀ c : Char, ¬ (c = '&' ∨ c = '<' ∨ c = '>' ∨ c = '"' ∨ c = apos ∨ c = '/') →
      escSix c = [c]) := by
  refine ⟨sanitizeString_eq_sixSpec, fun c hc => ?_⟩
  push_neg at hc
  obtain ⟨h1, h2, h3, h4, h5, h6⟩ := hc
  simp [escSix, h1, h2, h3, h4, h5, h6]

/-- C4 — corrected.  `sanitizeString` is not idempotent: the ampersand
introduced by escaping is itself re-escaped on a second pass, so at the
input `"&"` the double application differs from the single one. -/
theorem c4_counterexample :
    sanitizeString (sanitizeString "&") ≠ sanitizeString "&" ∧
    sanitizeString "&" = "&amp;" ∧
    sanitizeString (sanitizeString "&") = "&amp;amp;" := by
  decide

/-- C4 (amended) — `sanitizeString` is idempotent on every string that
contains none of the six escaped characters (on such strings it only
trims, and trimming is idempotent); in general idempotence fails, as
the counterexample records. -/
theorem c4_idempotent_on_unescaped (s : String)
    (h : ∀ c ∈ s.data, ¬ (c = '&' ∨ c = '<' ∨ c = '>' ∨ c = '"' ∨ c = apos ∨ c = '/')) :
    sanitizeString (sanitizeString s) = sanitizeString s := by
  have hid : ∀ c ∈ s.data, escSix c = [c] := by
    intro c hc
    have h2 := h c hc
    push_neg at h2
    obtain ⟨h1, h2, h3, h4, h5, h6⟩ := h2
    simp [escSix, h1, h2, h3, h4, h5, h6]
  have e1 : sanitizeString s = jsTrim s := by
    rw [sanitizeString_eq_sixSpec]
    unfold sanitizeSixSpec
    rw [flatMap_escSix_eq_self hid, mk_data]
  have hid2 : ∀ c ∈ (jsTrim s).data, escSix c = [c] := by
    intro c hc
    exact hid c (mem_of_mem_trimChars hc)
  have e2 : sanitizeString (jsTrim s) = jsTrim (jsTrim s) := by
    rw [sanitizeString_eq_sixSpec]
    unfold sanitizeSixSpec
    rw [flatMap_escSix_eq_self hid2, mk_data]
  rw [e1, e2, jsTrim_idem]

/-- C4 witness: the amended idempotence applied at the concrete input
`" abc "`, which contains none of the escaped characters. -/
theorem c4_witness :
    sanitizeString (sanitizeString " abc ") = sanitizeString " abc " :=
  c4_idempotent_on_unescaped " abc " (by decide)

theorem foldl_collectStep {T : Type} (rs : List (ValidationResult T))
    (e : List ValidationError) (l : Option T) :
    rs.foldl collectStep (e, l) =
      (e ++ failedErrorsOf rs, (lastSuccessDataOf rs).getD l) := by
  induction rs generalizing e l with
  | nil => simp [failedErrorsOf, lastSuccessDataOf]
  | cons r rs ih =>
    cases r with
    | failure es =>
      rw [List.foldl_cons]
      show rs.foldl collectStep (e ++ es, l) = _
      rw [ih]
      simp [failedErrorsOf, lastSuccessDataOf]
    | success d =>
      rw [List.foldl_cons]
      show rs.foldl collectStep (e, d) = _
      rw [ih]
      simp only [failedErrorsOf, lastSuccessDataOf, List.flatMap_cons, List.filterMap_cons]
      rw [List.getLast?_cons]
      cases h : (rs.filterMap fun r => match r with
          | ValidationResult.success d => some d
          | ValidationResult.failure _ => none).getLast? <;> simp [h]

theorem collect_spec {T : Type} (rs : List (ValidationResult T)) :
    collectValidationErrors rs =
      if failedErrorsOf rs = [] then
        (match lastSuccessDataOf rs with
         | some (some d) => .success (some d)
         | _ => .failure [⟨"general", "No valid data found"⟩])
      else .failure (failedErrorsOf rs) := by
  unfold collectValidationErrors
  rw [foldl_collectStep]
  by_cases h : failedErrorsOf rs = []
  · rw [if_pos h]
    simp only [h, List.append_nil, List.length_nil]
    cases hl : lastSuccessDataOf rs with
    | none => simp
    | some o => cases o <;> simp
  · rw [if_neg h]
    have hlen : 0 < (failedErrorsOf rs).length := List.length_pos.mpr h
    simp only [List.nil_append]
    rw [if_pos hlen]

/-- C1 — corrected.  As stated, the claim fails in two reachable
corners of the `ValidationResult` type: a list of successes whose last
element carries an `undefined` payload yields the generic failure
rather than a success, and a failure carrying an empty error list is
invisible to the error accumulator, so a list containing it can still
succeed. -/
theorem c1_counterexample :
    collectValidationErrors [ValidationResult.success (none : Option Nat)] =
      .failure [⟨"general", "No valid data found"⟩] ∧
    collectValidationErrors
        [ValidationResult.failure ([] : List ValidationError),
         ValidationResult.success (some (0 : Nat))] =
      .success (some 0) := by
  decide

/-- C1 (amended) — exact behavior of `collectValidationErrors` (and of
its deprecated delegating alias `mergeValidationResults`): when the
concatenation, in input order, of the failed inputs' errors is
nonempty, the output is a failure carrying exactly that concatenation
(successes' data is discarded); otherwise the output is a success
carrying the last successful input's data when such an input exists
and its data is defined, and in every remaining case — zero results,
no successes, or a last success whose data is `undefined` — it is a
failure with the single generic "No valid data found" error, never a
vacuous success. -/
theorem c1_collect_aggregation {T : Type} (rs : List (ValidationResult T)) :
    (collectValidationErrors rs =
      if failedErrorsOf rs = [] then
        (match lastSuccessDataOf rs with
         | some (some d) => .success (some d)
         | _ => .failure [⟨"general", "No valid data found"⟩])
      else .failure (failedErrorsOf rs)) ∧
    mergeValidationResults rs = collectValidationErrors rs :=
  ⟨collect_spec rs, rfl⟩

theorem failedErrorsOf_eq_nil {T : Type} {rs : List (ValidationResult T)}
    (hall : ∀ r ∈ rs, ∃ d, r = ValidationResult.success d) :
    failedErrorsOf rs = [] := by
  induction rs with
  | nil => rfl
  | cons r rs ih =>
    obtain ⟨d, rfl⟩ := hall r (by simp)
    show failedErrorsOf rs = []
    exact ih (fun r hr => hall r (by simp [hr]))

theorem lastSuccessDataOf_all_success {T : Type} {rs : List (ValidationResult T)}
    (hall : ∀ r ∈ rs, ∃ d, r = ValidationResult.success d) :
    lastSuccessDataOf rs =
      (match rs.getLast? with
       | some (ValidationResult.success d) => some d
       | _ => none) := by
  induction rs with
  | nil => rfl
  | cons r rs ih =>
    obtain ⟨d, rfl⟩ := hall r (by simp)
    have ih2 := ih (fun r hr => hall r (by simp [hr]))
    cases rs with
    | nil => rfl
    | cons r2 rs2 =>
      obtain ⟨d2, rfl⟩ := hall r2 (by simp)
      simp only [lastSuccessDataOf, List.filterMap_cons] at ih2 ⊢
      rw [List.getLast?_cons_cons, List.getLast?_cons_cons]
      exact ih2

/-- C8 — confirmed.  `collectValidationErrors` decides success by
inspecting the data value: with at least one result, all of them
successes, and the last one's data `undefined`, it returns the generic
"No valid data found" failure instead of a success. -/
theorem c8_undefined_data_failure {T : Type} (rs : List (ValidationResult T))
    (hall : ∀ r ∈ rs, ∃ d, r = ValidationResult.success d)
    (hlast : rs.getLast? = some (ValidationResult.success none)) :
    collectValidationErrors rs = .failure [⟨"general", "No valid data found"⟩] := by
  rw [collect_spec, if_pos (failedErrorsOf_eq_nil hall),
    lastSuccessDataOf_all_success hall, hlast]

/-- C8 witness: the theorem applied at the one-element list holding a
success with `undefined` data. -/
theorem c8_witness :
    collectValidationErrors [ValidationResult.success (none : Option Nat)] =
      .failure [⟨"general", "No valid data found"⟩] :=
  c8_undefined_data_failure _
    (by intro r hr; simp at hr; exact ⟨none, hr⟩) (by simp)

/-- C7 — confirmed.  `formatErrorMessage` returns the generic fallback
on zero errors, the lone message unprefixed on one error, and a header
line plus one "- field: message" bullet per error, newline-joined and
order-preserving, on two or more. -/
theorem c7_formatErrorMessage :
    formatErrorMessage [] = "Validation failed" ∧
    (∀ e : ValidationError, formatErrorMessage [e] = e.message) ∧
    (∀ e1 e2 : ValidationError, ∀ rest : List ValidationError,
      formatErrorMessage (e1 :: e2 :: rest) =
        "Validation failed:\n" ++ String.intercalate "\n"
          ((e1 :: e2 :: rest).map (fun e => "- " ++ e.field ++ ": " ++ e.message))) := by
  refine ⟨rfl, fun e => rfl, fun e1 e2 rest => ?_⟩
  simp [formatErrorMessage]

/-- C5 — confirmed.  `validateEnv` never returns normally after a
failed validation: on any failed parse it throws (modelled as
`.error`) with the aggregated message holding one "- field: message"
line per field-level error, and on success it returns the parsed
configuration value. -/
theorem c5_validateEnv (shape : List (String × FieldSchema)) (env : List (String × JVal)) :
    (∀ errs, parseObj shape env = .error errs →
      validateEnv shape env = .error ("Environment validation failed:\n" ++
        String.intercalate "\n" (errs.map (fun e => "- " ++ e.field ++ ": " ++ e.message)))) ∧
    (∀ d, parseObj shape env = .ok d → validateEnv shape env = .ok d) := by
  constructor <;> intro x hx <;> simp [validateEnv, hx]

/-- C5 witness: the theorem applied at a concrete schema requiring a
URL variable — once with an empty environment (failure branch, with
the aggregated one-line-per-error message) and once with a satisfying
environment (success branch). -/
theorem c5_witness :
    validateEnv [("VITE_SUPABASE_URL", FieldSchema.zstr [.url "Invalid Supabase URL"])] [] =
      .error "Environment validation failed:\n- VITE_SUPABASE_URL: Required" ∧
    validateEnv [("VITE_SUPABASE_URL", FieldSchema.zstr [.url "Invalid Supabase URL"])]
        [("VITE_SUPABASE_URL", .str "https://example.com/db")] =
      .ok [("VITE_SUPABASE_URL", .str "https://example.com/db")] := by
  constructor
  · exact (c5_validateEnv _ _).1 [⟨"VITE_SUPABASE_URL", "Required"⟩] rfl
  · exact (c5_validateEnv _ _).2 [("VITE_SUPABASE_URL", .str "https://example.com/db")] rfl

theorem parseField_error_ne_nil {fs : FieldSchema} {ov : Option JVal} {msgs : List String}
    (h : parseField fs ov = .error msgs) : msgs ≠ [] := by
  induction fs generalizing ov msgs with
  | zstr checks =>
    cases ov with
    | none => simp [parseField] at h; simp [← h]
    | some v =>
      cases v <;> simp [parseField] at h <;> try simp [← h]
      case str s =>
        split at h
        · exact absurd h (by simp)
        · next hne =>
          injection h with h2
          rw [← h2]; exact hne
  | znum checks =>
    cases ov with
    | none => simp [parseField] at h; simp [← h]
    | some v =>
      cases v <;> simp [parseField] at h <;> try simp [← h]
      case num q =>
        split at h
        · exact absurd h (by simp)
        · next hne =>
          injection h with h2
          rw [← h2]; exact hne
  | zbool =>
    cases ov with
    | none => simp [parseField] at h; simp [← h]
    | some v => cases v <;> simp [parseField] at h <;> simp [← h]
  | zenum opts msg =>
    cases ov with
    | none => simp [parseField] at h; simp [← h]
    | some v =>
      cases v <;> simp [parseField] at h <;> try simp [← h]
      case str s =>
        split at h
        · exact absurd h (by simp)
        · injection h with h2; simp [← h2]
  | zliteral lit =>
    cases ov with
    | none => simp [parseField] at h; simp [← h]
    | some v =>
      simp only [parseField] at h
      split at h
      · exact absurd h (by simp)
      · injection h with h2; simp [← h2]
  | zunion a b iha ihb =>
    cases ov with
    | none => simp [parseField] at h; simp [← h]
    | some v =>
      simp only [parseField] at h
      split at h
      · exact absurd h (by simp)
      · split at h
        · exact absurd h (by simp)
        · injection h with h2; simp [← h2]
  | zoptional inner ih =>
    cases ov with
    | none => exact absurd h (by simp [parseField])
    | some v => exact ih (by simpa [parseField] using h)

theorem parseObjFields_keys_sublist (shape : List (String × FieldSchema))
    (input : List (String × JVal)) :
    ((parseObjFields shape input).2.map Prod.fst).Sublist (shape.map Prod.fst) := by
  induction shape with
  | nil => simp [parseObjFields]
  | cons p rest ih =>
    obtain ⟨k, fs⟩ := p
    simp only [parseObjFields]
    cases h : parseField fs (lookupJ input k) with
    | ok r =>
      cases r with
      | none => exact ih.cons k
      | some v => exact ih.cons₂ k
    | error msgs => exact ih.cons k

theorem lookupJ_eq_none {fields : List (String × JVal)} {k : String}
    (h : k ∉ fields.map Prod.fst) : lookupJ fields k = none := by
  induction fields with
  | nil => rfl
  | cons p rest ih =>
    obtain ⟨k2, v⟩ := p
    simp only [List.map_cons, List.mem_cons] at h
    push_neg at h
    have hne : ¬ k2 = k := fun hc => h.1 hc.symm
    simp only [lookupJ, if_neg hne]
    exact ih h.2

theorem lookupJ_append (xs ys : List (String × JVal)) (k : String) :
    lookupJ (xs ++ ys) k =
      (match lookupJ xs k with
       | some v => some v
       | none => lookupJ ys k) := by
  induction xs with
  | nil => rfl
  | cons p rest ih =>
    obtain ⟨k2, v⟩ := p
    simp only [List.cons_append, lookupJ]
    by_cases h : k2 = k
    · simp [h]
    · simp only [if_neg h]
      exact ih

theorem parseObj_ok_inv {shape : List (String × FieldSchema)}
    {input out : List (String × JVal)} (h : parseObj shape input = .ok out) :
    (parseObjFields shape input).1 = [] ∧ (parseObjFields shape input).2 = out := by
  unfold parseObj at h
  by_cases he : (parseObjFields shape input).1 = []
  · rw [if_pos he] at h
    exact ⟨he, by injection h⟩
  · rw [if_neg he] at h
    exact absurd h (by simp)

/-- C6 — confirmed.  The Update schemas accept only keys of the
respective Insert schemas and never the immutable ownership key
`user_id`; moreover every successfully validated update output is free
of `user_id` — even when the raw input supplies one — and contains only
Insert-schema keys. -/
theorem c6_update_ownership :
    (ingredientUpdateSchema.map Prod.fst ⊆ ingredientInsertSchema.map Prod.fst) ∧
    (recipeUpdateSchema.map Prod.fst ⊆ recipeInsertSchema.map Prod.fst) ∧
    "user_id" ∉ ingredientUpdateSchema.map Prod.fst ∧
    "user_id" ∉ recipeUpdateSchema.map Prod.fst ∧
    (∀ input out, parseObj ingredientUpdateSchema input = .ok out →
      lookupJ out "user_id" = none ∧
        out.map Prod.fst ⊆ ingredientInsertSchema.map Prod.fst) ∧
    (∀ input out, parseObj recipeUpdateSchema input = .ok out →
      lookupJ out "user_id" = none ∧
        out.map Prod.fst ⊆ recipeInsertSchema.map Prod.fst) := by
  refine ⟨by decide, by decide, by decide, by decide, ?_, ?_⟩
  · intro input out h
    obtain ⟨_, hout⟩ := parseObj_ok_inv h
    have hsub := parseObjFields_keys_sublist ingredientUpdateSchema input
    rw [hout] at hsub
    have hss : ingredientUpdateSchema.map Prod.fst ⊆ ingredientInsertSchema.map Prod.fst := by
      decide
    constructor
    · refine lookupJ_eq_none (fun hmem => ?_)
      have hm2 := hsub.mem hmem
      revert hm2
      decide
    · intro k hk
      exact hss (hsub.subset hk)
  · intro input out h
    obtain ⟨_, hout⟩ := parseObj_ok_inv h
    have hsub := parseObjFields_keys_sublist recipeUpdateSchema input
    rw [hout] at hsub
    have hss : recipeUpdateSchema.map Prod.fst ⊆ recipeInsertSchema.map Prod.fst := by
      decide
    constructor
    · refine lookupJ_eq_none (fun hmem => ?_)
      have hm2 := hsub.mem hmem
      revert hm2
      decide
    · intro k hk
      exact hss (hsub.subset hk)

/-- C6 witness: validating a concrete update object that supplies
`user_id` — the validated output drops it and keeps only Insert-schema
keys. -/
theorem c6_witness :
    lookupJ [("name", JVal.str "Basil")] "user_id" = none ∧
    [("name", JVal.str "Basil")].map Prod.fst ⊆
      ingredientInsertSchema.map Prod.fst :=
  (c6_update_ownership.2.2.2.2.1
    [("name", .str "Basil"),
     ("user_id", .str "123e4567-e89b-12d3-a456-426614174000")]
    [("name", .str "Basil")] rfl)

/-- C9 — confirmed.  In the ingredient schemas the name field chains
its length bounds before `.trim()`, so the bounds are evaluated on the
untrimmed input and trimming happens afterwards: any string of length
1–255 — in particular whitespace-only input — is accepted and
validates to its trimmed form (possibly empty), and any string of
untrimmed length above 255 is rejected with the "too long" error
regardless of its trimmed length. -/
theorem c9_name_untrimmed_bounds :
    (("name", FieldSchema.zstr [.min 1 "Ingredient name is required",
        .max 255 "Ingredient name too long", .trim]) ∈ ingredientSchema ∧
     ("name", FieldSchema.zstr [.min 1 "Ingredient name is required",
        .max 255 "Ingredient name too long", .trim]) ∈ ingredientInsertSchema) ∧
    (∀ s : String, 1 ≤ jsLen s → jsLen s ≤ 255 →
      parseField (FieldSchema.zstr [.min 1 "Ingredient name is required",
          .max 255 "Ingredient name too long", .trim]) (some (.str s)) =
        .ok (some (.str (jsTrim s)))) ∧
    (∀ s : String, 255 < jsLen s →
      parseField (FieldSchema.zstr [.min 1 "Ingredient name is required",
          .max 255 "Ingredient name too long", .trim]) (some (.str s)) =
        .error ["Ingredient name too long"]) ∧
    parseField (FieldSchema.zstr [.min 1 "Ingredient name is required",
        .max 255 "Ingredient name too long", .trim]) (some (.str "  ")) =
      .ok (some (.str "")) := by
  refine ⟨⟨by decide, by decide⟩, ?_, ?_, by decide⟩
  · intro s h1 h2
    have hn1 : ¬ jsLen s < 1 := by omega
    have hn2 : ¬ jsLen s > 255 := by omega
    have hrun : runStrChecks [.min 1 "Ingredient name is required",
        .max 255 "Ingredient name too long", .trim] s = (jsTrim s, []) := by
      simp [runStrChecks, runStrCheck, hn1, hn2]
    simp only [parseField, hrun]
    simp
  · intro s h
    have hn1 : ¬ jsLen s < 1 := by omega
    have hn2 : jsLen s > 255 := h
    have hrun : runStrChecks [.min 1 "Ingredient name is required",
        .max 255 "Ingredient name too long", .trim] s =
        (jsTrim s, ["Ingredient name too long"]) := by
      simp [runStrChecks, runStrCheck, hn1, hn2]
    simp only [parseField, hrun]
    simp

set_option maxRecDepth 4096 in
/-- C9 witness: the general clauses applied at a 5-character input that
trims to "abc", and at a 256-character input (one letter followed by
255 spaces) whose trimmed length is 1 yet is rejected. -/
theorem c9_witness :
    parseField (FieldSchema.zstr [.min 1 "Ingredient name is required",
        .max 255 "Ingredient name too long", .trim]) (some (.str " abc ")) =
      .ok (some (.str (jsTrim " abc "))) ∧
    parseField (FieldSchema.zstr [.min 1 "Ingredient name is required",
        .max 255 "Ingredient name too long", .trim])
        (some (.str (String.mk ('a' :: List.replicate 255 ' ')))) =
      .error ["Ingredient name too long"] :=
  ⟨c9_name_untrimmed_bounds.2.1 " abc " (by decide) (by decide),
   c9_name_untrimmed_bounds.2.2.1 (String.mk ('a' :: List.replicate 255 ' '))
     (by decide)⟩

/-- C10 — confirmed.  `sanitizeObject` is observationally a fresh copy
of its (immutably held) argument: the key list is unchanged, every
string-valued property is rewritten through `sanitizeString`, and
every non-string property — numbers, booleans, `null`, and nested
arrays or objects, which are not descended into — is the identical
original value. -/
theorem c10_sanitizeObject (obj : List (String × JVal)) :
    ((sanitizeObject obj).map Prod.fst = obj.map Prod.fst) ∧
    (∀ k s, lookupJ obj k = some (.str s) →
      lookupJ (sanitizeObject obj) k = some (.str (sanitizeString s))) ∧
    (∀ k v, lookupJ obj k = some v → (∀ s, v ≠ .str s) →
      lookupJ (sanitizeObject obj) k = some v) ∧
    (∀ k, lookupJ obj k = none → lookupJ (sanitizeObject obj) k = none) := by
  induction obj with
  | nil => exact ⟨rfl, fun k s h => by simp [lookupJ] at h, fun k v h => by simp [lookupJ] at h,
      fun k _ => rfl⟩
  | cons p rest ih =>
    obtain ⟨k0, v0⟩ := p
    refine ⟨?_, ?_, ?_, ?_⟩
    · simp only [sanitizeObject, List.map_cons] at ih ⊢
      simp [ih.1]
    · intro k s h
      simp only [lookupJ] at h
      by_cases hk : k0 = k
      · rw [if_pos hk] at h
        injection h with h2
        subst h2
        simp [sanitizeObject, lookupJ, hk]
      · rw [if_neg hk] at h
        have := ih.2.1 k s h
        simpa [sanitizeObject, lookupJ, hk] using this
    · intro k v h hne
      simp only [lookupJ] at h
      by_cases hk : k0 = k
      · rw [if_pos hk] at h
        injection h with h2
        subst h2
        cases v0 with
        | str s => exact absurd rfl (hne s)
        | num q => simp [sanitizeObject, lookupJ, hk]
        | boolean b => simp [sanitizeObject, lookupJ, hk]
        | nullV => simp [sanitizeObject, lookupJ, hk]
        | arr xs => simp [sanitizeObject, lookupJ, hk]
        | obj fs => simp [sanitizeObject, lookupJ, hk]
      · rw [if_neg hk] at h
        have := ih.2.2.1 k v h hne
        simpa [sanitizeObject, lookupJ, hk] using this
    · intro k h
      simp only [lookupJ] at h
      by_cases hk : k0 = k
      · rw [if_pos hk] at h; exact absurd h (by simp)
      · rw [if_neg hk] at h
        have := ih.2.2.2 k h
        simpa [sanitizeObject, lookupJ, hk] using this

/-- C10 witness: the theorem applied at a concrete object holding a
string, a number and a nested object — the string is sanitized, the
number and the nested object (whose inner string keeps its `<`) pass
through identically. -/
theorem c10_witness :
    lookupJ (sanitizeObject
        [("a", JVal.str " x& "), ("n", JVal.num 2),
         ("o", JVal.obj [("inner", JAtom.str "<")])]) "a" =
      some (.str (sanitizeString " x& ")) ∧
    lookupJ (sanitizeObject
        [("a", JVal.str " x& "), ("n", JVal.num 2),
         ("o", JVal.obj [("inner", JAtom.str "<")])]) "o" =
      some (JVal.obj [("inner", JAtom.str "<")]) :=
  ⟨(c10_sanitizeObject _).2.1 "a" " x& " rfl,
   (c10_sanitizeObject _).2.2.1 "o" (JVal.obj [("inner", JAtom.str "<")]) rfl
     (fun _ h => JVal.noConfusion h)⟩

theorem parseObjFields_ok_mem {shape : List (String × FieldSchema)}
    {input : List (String × JVal)}
    (hnd : (shape.map Prod.fst).Nodup)
    (h : (parseObjFields shape input).1 = [])
    {k : String} {fs : FieldSchema} (hmem : (k, fs) ∈ shape) :
    parseField fs (lookupJ input k) = .ok (lookupJ (parseObjFields shape input).2 k) := by
  induction shape with
  | nil => simp at hmem
  | cons p rest ih =>
    obtain ⟨k0, fs0⟩ := p
    simp only [List.map_cons, List.nodup_cons] at hnd
    simp only [parseObjFields] at h ⊢
    cases hpf : parseField fs0 (lookupJ input k0) with
    | error msgs =>
      simp only [hpf] at h
      have hmne := parseField_error_ne_nil hpf
      rw [List.append_eq_nil] at h
      exact absurd (List.map_eq_nil_iff.mp h.1) hmne
    | ok r =>
      simp only [hpf] at h ⊢
      rcases List.mem_cons.mp hmem with heq | hmem2
      · rw [Prod.mk.injEq] at heq
        obtain ⟨hk, hfs⟩ := heq
        subst hk
        subst hfs
        cases r with
        | none =>
          rw [hpf]
          have hn : lookupJ (parseObjFields rest input).2 k = none :=
            lookupJ_eq_none
              (fun hm => hnd.1 ((parseObjFields_keys_sublist rest input).subset hm))
          rw [hn]
        | some v =>
          rw [hpf]
          simp [lookupJ]
      · have hkrest : k ∈ rest.map Prod.fst := List.mem_map_of_mem Prod.fst hmem2
        have hk0 : ¬ k0 = k := fun hc => hnd.1 (hc ▸ hkrest)
        cases r with
        | none => exact ih hnd.2 h hmem2
        | some v =>
          simp only [lookupJ, if_neg hk0]
          exact ih hnd.2 h hmem2

theorem parseObjFields_ok_of_all {shape : List (String × FieldSchema)}
    {input : List (String × JVal)}
    (h : ∀ p ∈ shape, ∃ r, parseField p.2 (lookupJ input p.1) = .ok r) :
    (parseObjFields shape input).1 = [] := by
  induction shape with
  | nil => rfl
  | cons p rest ih =>
    obtain ⟨k0, fs0⟩ := p
    obtain ⟨r, hr⟩ := h (k0, fs0) (by simp)
    have ih2 := ih (fun q hq => h q (by simp [hq]))
    simp only [parseObjFields, hr]
    cases r <;> simpa using ih2

theorem parseObj_ok_exists {shape : List (String × FieldSchema)}
    {input : List (String × JVal)}
    (h : ∀ p ∈ shape, ∃ r, parseField p.2 (lookupJ input p.1) = .ok r) :
    ∃ out2, parseObj shape input = .ok out2 := by
  unfold parseObj
  rw [if_pos (parseObjFields_ok_of_all h)]
  exact ⟨_, rfl⟩

theorem parseField_zstr_ok {checks : List StrCheck} {ov : Option JVal} {r : Option JVal}
    (h : parseField (.zstr checks) ov = .ok r) :
    ∃ s, ov = some (.str s) ∧ (runStrChecks checks s).2 = [] ∧
      r = some (.str (runStrChecks checks s).1) := by
  cases ov with
  | none => simp [parseField] at h
  | some v =>
    cases v with
    | str s =>
      simp only [parseField] at h
      split at h
      · next he =>
        refine ⟨s, rfl, he, ?_⟩
        injection h with h2
        exact h2.symm
      · exact absurd h (by simp)
    | num q => simp [parseField] at h
    | boolean b => simp [parseField] at h
    | nullV => simp [parseField] at h
    | arr xs => simp [parseField] at h
    | obj fields => simp [parseField] at h

theorem parseField_znum_ok {checks : List NumCheck} {ov : Option JVal} {r : Option JVal}
    (h : parseField (.znum checks) ov = .ok r) :
    ∃ q, ov = some (.num q) ∧ runNumChecks checks q = [] ∧ r = some (.num q) := by
  cases ov with
  | none => simp [parseField] at h
  | some v =>
    cases v with
    | num q =>
      simp only [parseField] at h
      split at h
      · next he =>
        refine ⟨q, rfl, he, ?_⟩
        injection h with h2
        exact h2.symm
      · exact absurd h (by simp)
    | str s => simp [parseField] at h
    | boolean b => simp [parseField] at h
    | nullV => simp [parseField] at h
    | arr xs => simp [parseField] at h
    | obj fields => simp [parseField] at h

theorem parseField_zopt_ok {inner : FieldSchema} {ov : Option JVal} {r : Option JVal}
    (h : parseField (.zoptional inner) ov = .ok r) :
    (ov = none ∧ r = none) ∨ ∃ v, ov = some v ∧ parseField inner (some v) = .ok r := by
  cases ov with
  | none =>
    left
    refine ⟨rfl, ?_⟩
    have h2 : (Except.ok (none : Option JVal) : Except (List String) (Option JVal)) = .ok r := h
    injection h2 with h3
    exact h3.symm
  | some v => exact Or.inr ⟨v, rfl, h⟩

theorem runStrChecks_uuid (m s : String) :
    runStrChecks [.uuid m] s = (s, if isUuid s then [] else [m]) := by
  cases h : isUuid s <;> simp [runStrChecks, runStrCheck, h]

theorem runStrChecks_datetime (m s : String) :
    runStrChecks [.datetime m] s = (s, if isDatetime s then [] else [m]) := by
  cases h : isDatetime s <;> simp [runStrChecks, runStrCheck, h]

theorem runStrChecks_dateFmt (m s : String) :
    runStrChecks [.dateFmt m] s = (s, if isDateStr s then [] else [m]) := by
  cases h : isDateStr s <;> simp [runStrChecks, runStrCheck, h]

theorem runStrChecks_max (b : Nat) (m s : String) :
    runStrChecks [.max b m] s = (s, if jsLen s > b then [m] else []) := by
  by_cases h : jsLen s > b <;> simp [runStrChecks, runStrCheck, h]

theorem runStrChecks_minmaxtrim (a b : Nat) (m1 m2 s : String) :
    runStrChecks [.min a m1, .max b m2, .trim] s =
      (jsTrim s, (if jsLen s < a then [m1] else []) ++ (if jsLen s > b then [m2] else [])) := by
  by_cases h1 : jsLen s < a <;> by_cases h2 : jsLen s > b <;>
    simp [runStrChecks, runStrCheck, h1, h2]

theorem ite_append_ite_eq_nil {c1 c2 : Prop} [Decidable c1] [Decidable c2]
    {x y : String}
    (h : (if c1 then [x] else []) ++ (if c2 then [y] else []) = ([] : List String)) :
    ¬ c1 ∧ ¬ c2 := by
  by_cases h1 : c1 <;> by_cases h2 : c2 <;> simp [h1, h2] at h ⊢

theorem parseField_uuid_again {s : String} (h : isUuid s = true) :
    parseField uuidSchema (some (.str s)) = .ok (some (.str s)) := by
  simp [uuidSchema, parseField, runStrChecks_uuid, h]

theorem parseField_datetime_again {s : String} (h : isDatetime s = true) :
    parseField dateStringSchema (some (.str s)) = .ok (some (.str s)) := by
  simp [dateStringSchema, parseField, runStrChecks_datetime, h]

theorem parseField_dateFmt_again {m s : String} (h : isDateStr s = true) :
    parseField (.zstr [.dateFmt m]) (some (.str s)) = .ok (some (.str s)) := by
  simp [parseField, runStrChecks_dateFmt, h]

theorem parseField_max_again {b : Nat} {m s : String} (h : ¬ jsLen s > b) :
    parseField (.zstr [.max b m]) (some (.str s)) = .ok (some (.str s)) := by
  simp [parseField, runStrChecks_max, h]

theorem parseField_minmaxtrim_again {a b : Nat} {m1 m2 s : String}
    (h1 : ¬ jsLen s < a) (h2 : ¬ jsLen s > b) :
    parseField (.zstr [.min a m1, .max b m2, .trim]) (some (.str s)) =
      .ok (some (.str (jsTrim s))) := by
  simp only [parseField, runStrChecks_minmaxtrim]
  simp [h1, h2]

theorem parseField_znum_again {checks : List NumCheck} {q : Rat}
    (h : runNumChecks checks q = []) :
    parseField (.znum checks) (some (.num q)) = .ok (some (.num q)) := by
  simp [parseField, h]

theorem jsLen_pos_of_ne_empty {s : String} (h : s ≠ "") : 1 ≤ jsLen s := by
  cases s with
  | mk data =>
    cases data with
    | nil => exact absurd rfl h
    | cons c cs => simp [jsLen]

/-- C2 — corrected.  The ingredient name/unit/category fields check
their minimum length on the untrimmed input and trim afterwards, so a
whitespace-only name validates through the Insert schema to the empty
string, and the resulting value — merged with well-formed server
fields — fails the Read schema's `min(1)` on re-validation. -/
theorem c2_counterexample :
    parseObj ingredientInsertSchema
        [("user_id", .str "123e4567-e89b-12d3-a456-426614174000"),
         ("name", .str "  "), ("quantity", .num 1), ("unit", .str "g"),
         ("category", .str "c")] =
      .ok [("user_id", .str "123e4567-e89b-12d3-a456-426614174000"),
           ("name", .str ""), ("quantity", .num 1), ("unit", .str "g"),
           ("category", .str "c")] ∧
    parseObj ingredientSchema
        ([("user_id", .str "123e4567-e89b-12d3-a456-426614174000"),
          ("name", .str ""), ("quantity", .num 1), ("unit", .str "g"),
          ("category", .str "c")] ++
         [("id", .str "123e4567-e89b-12d3-a456-426614174000"),
          ("created_at", .str "2024-01-01T00:00:00Z"),
          ("updated_at", .str "2024-01-01T00:00:00Z")]) =
      .error [⟨"name", "Ingredient name is required"⟩] :=
  ⟨rfl, rfl⟩

/-- C2 (amended) — the Insert-to-Read round trip holds for the
ingredient entity whenever the validated insert output's trimmed
required string fields (name, unit, category) are nonempty: merging
such an output with well-formed server-generated `id`, `created_at`
and `updated_at` yields a value the Read schema accepts. -/
theorem c2_round_trip (input out : List (String × JVal)) (idv cav uav : String)
    (hins : parseObj ingredientInsertSchema input = .ok out)
    (hname : lookupJ out "name" ≠ some (.str ""))
    (hunit : lookupJ out "unit" ≠ some (.str ""))
    (hcat : lookupJ out "category" ≠ some (.str ""))
    (hid : isUuid idv = true) (hca : isDatetime cav = true)
    (hua : isDatetime uav = true) :
    ∃ out2, parseObj ingredientSchema
      (out ++ [("id", .str idv), ("created_at", .str cav), ("updated_at", .str uav)]) =
        .ok out2 := by
  obtain ⟨herr, hout⟩ := parseObj_ok_inv hins
  have hnd : (ingredientInsertSchema.map Prod.fst).Nodup := by decide
  have hinv : ∀ {k : String} {fs : FieldSchema}, (k, fs) ∈ ingredientInsertSchema →
      parseField fs (lookupJ input k) = .ok (lookupJ out k) := by
    intro k fs hm
    have h2 := parseObjFields_ok_mem hnd herr hm
    rwa [hout] at h2
  have hoks : ∀ {kk : String}, kk ∈ out.map Prod.fst →
      kk ∈ ingredientInsertSchema.map Prod.fst := by
    intro kk hm
    have h2 := parseObjFields_keys_sublist ingredientInsertSchema input
    rw [hout] at h2
    exact h2.subset hm
  have hserver : ∀ kk : String, kk ∉ ingredientInsertSchema.map Prod.fst →
      lookupJ (out ++ [("id", JVal.str idv), ("created_at", JVal.str cav),
          ("updated_at", JVal.str uav)]) kk =
        lookupJ [("id", JVal.str idv), ("created_at", JVal.str cav),
          ("updated_at", JVal.str uav)] kk := by
    intro kk hkk
    rw [lookupJ_append, lookupJ_eq_none (fun hm => hkk (hoks hm))]
  have hkeep : ∀ (kk : String) (v : JVal), lookupJ out kk = some v →
      lookupJ (out ++ [("id", JVal.str idv), ("created_at", JVal.str cav),
          ("updated_at", JVal.str uav)]) kk = some v := by
    intro kk v hv
    rw [lookupJ_append, hv]
  have hmiss : ∀ kk : String, lookupJ out kk = none →
      lookupJ (out ++ [("id", JVal.str idv), ("created_at", JVal.str cav),
          ("updated_at", JVal.str uav)]) kk =
        lookupJ [("id", JVal.str idv), ("created_at", JVal.str cav),
          ("updated_at", JVal.str uav)] kk := by
    intro kk hv
    rw [lookupJ_append, hv]
  refine parseObj_ok_exists ?_
  intro p hp
  obtain ⟨k, fs⟩ := p
  dsimp only
  simp only [ingredientSchema, List.mem_cons, Prod.mk.injEq,
    List.not_mem_nil, or_false] at hp
  rcases hp with hq | hq | hq | hq | hq | hq | hq | hq | hq | hq | hq <;>
    obtain ⟨rfl, rfl⟩ := hq
  · -- id
    have hl : lookupJ (out ++ [("id", JVal.str idv), ("created_at", JVal.str cav),
        ("updated_at", JVal.str uav)]) "id" = some (.str idv) := by
      rw [hserver "id" (by decide)]
      rfl
    exact ⟨some (.str idv), by rw [hl]; exact parseField_uuid_again hid⟩
  · -- user_id
    have h2 := hinv (show ("user_id", uuidSchema) ∈ ingredientInsertSchema by decide)
    rw [show uuidSchema = FieldSchema.zstr [.uuid "Invalid UUID format"] from rfl] at h2
    obtain ⟨s, hin2, hchk, hr⟩ := parseField_zstr_ok h2
    have hval : (runStrChecks [.uuid "Invalid UUID format"] s).1 = s := by
      rw [runStrChecks_uuid]
    have hch2 : (runStrChecks [.uuid "Invalid UUID format"] s).2 =
        (if isUuid s then [] else ["Invalid UUID format"]) := by
      rw [runStrChecks_uuid]
    rw [hch2] at hchk
    have hu : isUuid s = true := by
      cases hh : isUuid s
      · rw [hh] at hchk; simp at hchk
      · rfl
    rw [hval] at hr
    exact ⟨some (.str s), by rw [hkeep "user_id" _ hr]; exact parseField_uuid_again hu⟩
  · -- name
    have h2 := hinv (show ("name", FieldSchema.zstr [.min 1 "Ingredient name is required",
        .max 255 "Ingredient name too long", .trim]) ∈ ingredientInsertSchema by decide)
    obtain ⟨s, hin2, hchk, hr⟩ := parseField_zstr_ok h2
    have hval : (runStrChecks [.min 1 "Ingredient name is required",
        .max 255 "Ingredient name too long", .trim] s).1 = jsTrim s := by
      rw [runStrChecks_minmaxtrim]
    have hch2 : (runStrChecks [.min 1 "Ingredient name is required",
        .max 255 "Ingredient name too long", .trim] s).2 =
        (if jsLen s < 1 then ["Ingredient name is required"] else []) ++
          (if jsLen s > 255 then ["Ingredient name too long"] else []) := by
      rw [runStrChecks_minmaxtrim]
    rw [hch2] at hchk
    obtain ⟨hb1, hb2⟩ := ite_append_ite_eq_nil hchk
    rw [hval] at hr
    have hne : jsTrim s ≠ "" := fun hc => hname (by rw [hr, hc])
    have hge : 1 ≤ jsLen (jsTrim s) := jsLen_pos_of_ne_empty hne
    have htle := jsLen_jsTrim_le s
    refine ⟨some (.str (jsTrim (jsTrim s))), ?_⟩
    rw [hkeep "name" _ hr]
    exact parseField_minmaxtrim_again (by omega) (by omega)
  · -- quantity
    have h2 := hinv (show ("quantity", positiveNumberSchema) ∈ ingredientInsertSchema
      by decide)
    rw [show positiveNumberSchema =
        FieldSchema.znum [.positive "Must be a positive number"] from rfl] at h2
    obtain ⟨q, hin2, hchk, hr⟩ := parseField_znum_ok h2
    exact ⟨some (.num q), by rw [hkeep "quantity" _ hr]; exact parseField_znum_again hchk⟩
  · -- unit
    have h2 := hinv (show ("unit", FieldSchema.zstr [.min 1 "Unit is required",
        .max 50 "Unit name too long", .trim]) ∈ ingredientInsertSchema by decide)
    obtain ⟨s, hin2, hchk, hr⟩ := parseField_zstr_ok h2
    have hval : (runStrChecks [.min 1 "Unit is required",
        .max 50 "Unit name too long", .trim] s).1 = jsTrim s := by
      rw [runStrChecks_minmaxtrim]
    have hch2 : (runStrChecks [.min 1 "Unit is required",
        .max 50 "Unit name too long", .trim] s).2 =
        (if jsLen s < 1 then ["Unit is required"] else []) ++
          (if jsLen s > 50 then ["Unit name too long"] else []) := by
      rw [runStrChecks_minmaxtrim]
    rw [hch2] at hchk
    obtain ⟨hb1, hb2⟩ := ite_append_ite_eq_nil hchk
    rw [hval] at hr
    have hne : jsTrim s ≠ "" := fun hc => hunit (by rw [hr, hc])
    have hge : 1 ≤ jsLen (jsTrim s) := jsLen_pos_of_ne_empty hne
    have htle := jsLen_jsTrim_le s
    refine ⟨some (.str (jsTrim (jsTrim s))), ?_⟩
    rw [hkeep "unit" _ hr]
    exact parseField_minmaxtrim_again (by omega) (by omega)
  · -- category
    have h2 := hinv (show ("category", FieldSchema.zstr [.min 1 "Category is required",
        .max 100 "Category name too long", .trim]) ∈ ingredientInsertSchema by decide)
    obtain ⟨s, hin2, hchk, hr⟩ := parseField_zstr_ok h2
    have hval : (runStrChecks [.min 1 "Category is required",
        .max 100 "Category name too long", .trim] s).1 = jsTrim s := by
      rw [runStrChecks_minmaxtrim]
    have hch2 : (runStrChecks [.min 1 "Category is required",
        .max 100 "Category name too long", .trim] s).2 =
        (if jsLen s < 1 then ["Category is required"] else []) ++
          (if jsLen s > 100 then ["Category name too long"] else []) := by
      rw [runStrChecks_minmaxtrim]
    rw [hch2] at hchk
    obtain ⟨hb1, hb2⟩ := ite_append_ite_eq_nil hchk
    rw [hval] at hr
    have hne : jsTrim s ≠ "" := fun hc => hcat (by rw [hr, hc])
    have hge : 1 ≤ jsLen (jsTrim s) := jsLen_pos_of_ne_empty hne
    have htle := jsLen_jsTrim_le s
    refine ⟨some (.str (jsTrim (jsTrim s))), ?_⟩
    rw [hkeep "category" _ hr]
    exact parseField_minmaxtrim_again (by omega) (by omega)
  · -- expiration_date
    have h2 := hinv (show ("expiration_date",
        FieldSchema.zoptional (.zstr [.dateFmt "Invalid date format"])) ∈
        ingredientInsertSchema by decide)
    rcases parseField_zopt_ok h2 with ⟨hin2, hrn⟩ | ⟨v, hin2, hpv⟩
    · exact ⟨none, by rw [hmiss "expiration_date" hrn]; rfl⟩
    · obtain ⟨s, hvs, hchk, hr⟩ := parseField_zstr_ok hpv
      have hval : (runStrChecks [.dateFmt "Invalid date format"] s).1 = s := by
        rw [runStrChecks_dateFmt]
      have hch2 : (runStrChecks [.dateFmt "Invalid date format"] s).2 =
          (if isDateStr s then [] else ["Invalid date format"]) := by
        rw [runStrChecks_dateFmt]
      rw [hch2] at hchk
      have hds : isDateStr s = true := by
        cases hh : isDateStr s
        · rw [hh] at hchk; simp at hchk
        · rfl
      rw [hval] at hr
      refine ⟨some (.str s), ?_⟩
      rw [hkeep "expiration_date" _ hr]
      show parseField (.zstr [.dateFmt "Invalid date format"]) (some (.str s)) = _
      exact parseField_dateFmt_again hds
  · -- notes
    have h2 := hinv (show ("notes",
        FieldSchema.zoptional (.zstr [.max 1000 "Notes too long"])) ∈
        ingredientInsertSchema by decide)
    rcases parseField_zopt_ok h2 with ⟨hin2, hrn⟩ | ⟨v, hin2, hpv⟩
    · exact ⟨none, by rw [hmiss "notes" hrn]; rfl⟩
    · obtain ⟨s, hvs, hchk, hr⟩ := parseField_zstr_ok hpv
      have hval : (runStrChecks [.max 1000 "Notes too long"] s).1 = s := by
        rw [runStrChecks_max]
      have hch2 : (runStrChecks [.max 1000 "Notes too long"] s).2 =
          (if jsLen s > 1000 then ["Notes too long"] else []) := by
        rw [runStrChecks_max]
      rw [hch2] at hchk
      have hle : ¬ jsLen s > 1000 := by
        by_cases hh : jsLen s > 1000
        · rw [if_pos hh] at hchk; simp at hchk
        · exact hh
      rw [hval] at hr
      refine ⟨some (.str s), ?_⟩
      rw [hkeep "notes" _ hr]
      show parseField (.zstr [.max 1000 "Notes too long"]) (some (.str s)) = _
      exact parseField_max_again hle
  · -- low_stock_threshold
    have h2 := hinv (show ("low_stock_threshold",
        FieldSchema.zoptional nonNegativeNumberSchema) ∈ ingredientInsertSchema by decide)
    rcases parseField_zopt_ok h2 with ⟨hin2, hrn⟩ | ⟨v, hin2, hpv⟩
    · exact ⟨none, by rw [hmiss "low_stock_threshold" hrn]; rfl⟩
    · rw [show nonNegativeNumberSchema =
          FieldSchema.znum [.nonneg "Must be non-negative"] from rfl] at hpv
      obtain ⟨q, hin3, hchk, hr⟩ := parseField_znum_ok hpv
      refine ⟨some (.num q), ?_⟩
      rw [hkeep "low_stock_threshold" _ hr]
      show parseField (FieldSchema.znum [.nonneg "Must be non-negative"]) (some (.num q)) = _
      exact parseField_znum_again hchk
  · -- created_at
    have hl : lookupJ (out ++ [("id", JVal.str idv), ("created_at", JVal.str cav),
        ("updated_at", JVal.str uav)]) "created_at" = some (.str cav) := by
      rw [hserver "created_at" (by decide)]
      rfl
    exact ⟨some (.str cav), by rw [hl]; exact parseField_datetime_again hca⟩
  · -- updated_at
    have hl : lookupJ (out ++ [("id", JVal.str idv), ("created_at", JVal.str cav),
        ("updated_at", JVal.str uav)]) "updated_at" = some (.str uav) := by
      rw [hserver "updated_at" (by decide)]
      rfl
    exact ⟨some (.str uav), by rw [hl]; exact parseField_datetime_again hua⟩

/-- C2 witness: the amended round trip applied at a concrete valid
ingredient insert (the spec's own "  Flour  " scenario) merged with a
concrete UUID and timestamps. -/
theorem c2_witness :
    ∃ out2, parseObj ingredientSchema
      ([("user_id", .str "123e4567-e89b-12d3-a456-426614174000"),
        ("name", .str "Flour"), ("quantity", .num 2), ("unit", .str "kg"),
        ("category", .str "Baking")] ++
       [("id", .str "123e4567-e89b-12d3-a456-426614174000"),
        ("created_at", .str "2024-01-01T00:00:00Z"),
        ("updated_at", .str "2024-01-01T00:00:00Z")]) = .ok out2 :=
  c2_round_trip
    [("user_id", .str "123e4567-e89b-12d3-a456-426614174000"),
     ("name", .str "  Flour  "), ("quantity", .num 2), ("unit", .str "kg"),
     ("category", .str "Baking")]
    [("user_id", .str "123e4567-e89b-12d3-a456-426614174000"),
     ("name", .str "Flour"), ("quantity", .num 2), ("unit", .str "kg"),
     ("category", .str "Baking")]
    "123e4567-e89b-12d3-a456-426614174000" "2024-01-01T00:00:00Z"
    "2024-01-01T00:00:00Z" rfl (by decide) (by decide) (by decide)
    (by decide) (by decide) (by decide)

end Appetite
